import Mathlib

/-
Verification of the utility functions defined in 07_Machine_Learning.ipynb:
split_data, train_test_split, accuracy, precision, recall, f1_score.

Modelling conventions:
  * Python floats are modelled as rationals (the spec speaks of fractions p
    in [0,1], and every claim is stated over exact arithmetic).
  * The random source is made explicit: random.shuffle produces some
    permutation of its argument, so split_data is modelled as acting on the
    already-shuffled copy, and every theorem quantifies over an arbitrary
    permutation of the input.
  * A Python runtime error (ZeroDivisionError, IndexError) is modelled as
    the value none of an Option result.
-/

namespace MLNotebook

/-- Model of the notebook function split_data, applied to the shuffled copy
of the input. The source copies its argument, shuffles the copy in place,
computes the cutoff cut = int(len(data) * prob) and returns the slices
data[:cut] and data[cut:]. For prob in [0,1] (the documented domain) the
product is nonnegative, so Python int() truncation equals the floor, and
Python slices with a nonnegative bound clamp at the length exactly as
List.take and List.drop do. -/
def split_data {X : Type} (shuffled : List X) (prob : ℚ) : List X × List X :=
  let cut : ℕ := ⌊(shuffled.length : ℚ) * prob⌋₊
  (shuffled.take cut, shuffled.drop cut)

/-- Model of a Python list comprehension [xs[i] for i in idxs]: returns the
selected elements, or none if some index is out of range (IndexError). -/
def selectIdx {X : Type} (xs : List X) : List ℕ → Option (List X)
  | [] => some []
  | i :: is =>
    match xs[i]?, selectIdx xs is with
    | some x, some rest => some (x :: rest)
    | _, _ => none

/-- Model of the notebook function train_test_split. The source builds
idxs = [0, ..., len(xs) - 1], splits them with split_data (so shuffledIdxs
below is the shuffled copy of that index list, some permutation of
List.range xs.length), and then indexes xs and ys with the two halves, in
the order the Python tuple is evaluated. -/
def train_test_split {X Y : Type} (xs : List X) (ys : List Y) (test_pct : ℚ)
    (shuffledIdxs : List ℕ) : Option (List X × List X × List Y × List Y) :=
  let idxsplit := split_data shuffledIdxs (1 - test_pct)
  (selectIdx xs idxsplit.1).bind fun xtr =>
  (selectIdx xs idxsplit.2).bind fun xte =>
  (selectIdx ys idxsplit.1).bind fun ytr =>
  (selectIdx ys idxsplit.2).map fun yte => (xtr, xte, ytr, yte)

/-- Python true division: a / b raises ZeroDivisionError when b = 0. -/
def pydiv (a b : ℚ) : Option ℚ := if b = 0 then none else some (a / b)

/-- Model of the notebook function accuracy: (tp + tn) / (tp + fp + fn + tn). -/
def accuracy (tp fp fn tn : ℕ) : Option ℚ :=
  pydiv ((tp : ℚ) + tn) ((tp : ℚ) + fp + fn + tn)

/-- Model of the notebook function precision: tp / (tp + fp). -/
def precision (tp fp fn tn : ℕ) : Option ℚ :=
  pydiv (tp : ℚ) ((tp : ℚ) + fp)

/-- Model of the notebook function recall: tp / (tp + fn). The source name
is recall, but recall is a reserved command token in this Lean environment,
so the definition carries a suffix. -/
def recall_fn (tp fp fn tn : ℕ) : Option ℚ :=
  pydiv (tp : ℚ) ((tp : ℚ) + fn)

/-- Model of the notebook function f1_score: computes p = precision and
r = recall first (so it propagates their errors), then 2 * p * r / (p + r). -/
def f1_score (tp fp fn tn : ℕ) : Option ℚ :=
  (precision tp fp fn tn).bind fun p =>
  (recall_fn tp fp fn tn).bind fun r =>
  pydiv (2 * p * r) (p + r)

/-- Heap model for the frame claim about split_data: Python list objects
live at addresses; next is the next fresh address, every allocated address
is below it. -/
structure Heap (X : Type) where
  store : ℕ → List X
  next : ℕ

/-- Allocate a fresh list object holding v; returns its address. -/
def Heap.alloc {X : Type} (h : Heap X) (v : List X) : ℕ × Heap X :=
  (h.next, ⟨fun b => if b = h.next then v else h.store b, h.next + 1⟩)

/-- Overwrite the list object at address a (an in-place mutation such as
random.shuffle performs). -/
def Heap.write {X : Type} (h : Heap X) (a : ℕ) (v : List X) : Heap X :=
  ⟨fun b => if b = a then v else h.store b, h.next⟩

/-- Heap-level model of split_data, given the address of the list of the caller:
data = data[:] allocates a fresh copy, random.shuffle(data) mutates that
copy in place (the permutation it chooses is the explicit shuffle
argument), and the two slices of the shuffled copy are returned together
with the final heap. -/
def split_data_heap {X : Type} (h : Heap X) (dataAddr : ℕ) (prob : ℚ)
    (shuffle : List X → List X) : (List X × List X) × Heap X :=
  match h.alloc (h.store dataAddr) with
  | (copyAddr, h1) =>
    let h2 := h1.write copyAddr (shuffle (h1.store copyAddr))
    let shuffled := h2.store copyAddr
    let cut : ℕ := ⌊(shuffled.length : ℚ) * prob⌋₊
    ((shuffled.take cut, shuffled.drop cut), h2)

/-- Concrete heap used to instantiate the frame theorem: one allocated list
object [1, 2, 3] at address 0. -/
def demoHeap : Heap ℕ := ⟨fun _ => [1, 2, 3], 1⟩

-- Helper lemmas -------------------------------------------------------------

theorem pydiv_eq_none {a b : ℚ} : pydiv a b = none ↔ b = 0 := by
  by_cases h : b = 0 <;> simp [pydiv, h]

theorem pydiv_eq_some {a b : ℚ} (h : b ≠ 0) : pydiv a b = some (a / b) := by
  simp [pydiv, h]

theorem selectIdx_isSome {X : Type} (xs : List X) (idxs : List ℕ) :
    (selectIdx xs idxs).isSome ↔ ∀ i ∈ idxs, i < xs.length := by
  induction idxs with
  | nil => simp [selectIdx]
  | cons i is ih =>
    cases hx : xs[i]? with
    | none =>
      have hge : xs.length ≤ i := List.getElem?_eq_none_iff.mp hx
      cases hr : selectIdx xs is with
      | none =>
        refine iff_of_false (by simp [selectIdx, hx, hr]) fun hall => ?_
        exact absurd (hall i (List.mem_cons_self i is)) (by omega)
      | some rest =>
        refine iff_of_false (by simp [selectIdx, hx, hr]) fun hall => ?_
        exact absurd (hall i (List.mem_cons_self i is)) (by omega)
    | some x =>
      have hi : i < xs.length := by
        by_contra hge
        rw [List.getElem?_eq_none_iff.mpr (by omega)] at hx
        exact Option.noConfusion hx
      cases hr : selectIdx xs is with
      | none =>
        refine iff_of_false (by simp [selectIdx, hx, hr]) fun hall => ?_
        have hrest := ih.mpr fun j hj => hall j (List.mem_cons_of_mem i hj)
        rw [hr] at hrest
        simp at hrest
      | some rest =>
        refine iff_of_true (by simp [selectIdx, hx, hr]) fun j hj => ?_
        rcases List.mem_cons.mp hj with hji | hjs
        · omega
        · exact ih.mp (by simp [hr]) j hjs

theorem selectIdx_isSome_of_lt {X : Type} {xs : List X} {idxs : List ℕ}
    (h : ∀ i ∈ idxs, i < xs.length) : ∃ l, selectIdx xs idxs = some l :=
  Option.isSome_iff_exists.mp ((selectIdx_isSome xs idxs).mpr h)

theorem selectIdx_length {X : Type} {xs : List X} {idxs : List ℕ}
    {l : List X} (h : selectIdx xs idxs = some l) : l.length = idxs.length := by
  induction idxs generalizing l with
  | nil =>
    simp [selectIdx] at h
    subst h
    rfl
  | cons i is ih =>
    cases hx : xs[i]? with
    | none => simp [selectIdx, hx] at h
    | some x =>
      cases hr : selectIdx xs is with
      | none => simp [selectIdx, hx, hr] at h
      | some rest =>
        simp [selectIdx, hx, hr] at h
        subst h
        simp [ih hr]

theorem selectIdx_getElem {X : Type} {xs : List X} {idxs : List ℕ}
    {l : List X} (h : selectIdx xs idxs = some l) (j : ℕ) :
    l[j]? = (idxs[j]?).bind fun i => xs[i]? := by
  induction idxs generalizing l j with
  | nil =>
    simp [selectIdx] at h
    subst h
    simp
  | cons i is ih =>
    cases hx : xs[i]? with
    | none => simp [selectIdx, hx] at h
    | some x =>
      cases hr : selectIdx xs is with
      | none => simp [selectIdx, hx, hr] at h
      | some rest =>
        simp [selectIdx, hx, hr] at h
        subst h
        cases j with
        | zero => simp [hx]
        | succ j => simpa using ih hr j

theorem train_test_split_some {X Y : Type} {xs : List X} {ys : List Y}
    {test_pct : ℚ} {s : List ℕ} {cut : ℕ}
    (hc : cut = ⌊(s.length : ℚ) * (1 - test_pct)⌋₊)
    {xtr xte : List X} {ytr yte : List Y}
    (h1 : selectIdx xs (s.take cut) = some xtr)
    (h2 : selectIdx xs (s.drop cut) = some xte)
    (h3 : selectIdx ys (s.take cut) = some ytr)
    (h4 : selectIdx ys (s.drop cut) = some yte) :
    train_test_split xs ys test_pct s = some (xtr, xte, ytr, yte) := by
  simp only [train_test_split, split_data]
  rw [← hc, h1, h2, h3, h4]
  rfl

theorem harmonic_mean_between {a b : ℚ} (ha : 0 < a) (hb : 0 < b) :
    min a b ≤ 2 * a * b / (a + b) ∧ 2 * a * b / (a + b) ≤ max a b := by
  have hab : 0 < a + b := by linarith
  constructor
  · rcases le_total a b with h | h
    · rw [min_eq_left h, le_div_iff₀ hab]
      nlinarith
    · rw [min_eq_right h, le_div_iff₀ hab]
      nlinarith
  · rcases le_total a b with h | h
    · rw [max_eq_right h, div_le_iff₀ hab]
      nlinarith
    · rw [max_eq_left h, div_le_iff₀ hab]
      nlinarith

-- Claim theorems ------------------------------------------------------------

/-- Claim C1: for every finite list data and fraction p in [0,1], split_data
returns two lists whose concatenation is a permutation of data (no element
duplicated or lost), where the randomness of random.shuffle is an arbitrary
permutation shuffled of data. -/
theorem split_data_union_perm {X : Type} (data shuffled : List X) (p : ℚ)
    (hperm : shuffled.Perm data) (h0 : 0 ≤ p) (h1 : p ≤ 1) :
    ((split_data shuffled p).1 ++ (split_data shuffled p).2).Perm data := by
  simpa [split_data] using hperm

/-- Witness for C1 at data = [1, 2, 3], shuffled copy [2, 1, 3], p = 1. -/
theorem split_data_union_perm_witness :
    ((split_data [2, 1, 3] 1).1 ++ (split_data [2, 1, 3] 1).2).Perm [1, 2, 3] :=
  split_data_union_perm [1, 2, 3] [2, 1, 3] 1 (by decide) (by decide) (by decide)

/-- Claim C2: for every finite list data and fraction p in [0,1], the first
list returned by split_data has length exactly floor(len(data) * p) and the
second has the remaining len(data) - floor(len(data) * p) elements. -/
theorem split_data_lengths {X : Type} (data shuffled : List X) (p : ℚ)
    (hperm : shuffled.Perm data) (h0 : 0 ≤ p) (h1 : p ≤ 1) :
    (split_data shuffled p).1.length = ⌊(data.length : ℚ) * p⌋₊ ∧
    (split_data shuffled p).2.length
      = data.length - ⌊(data.length : ℚ) * p⌋₊ := by
  have hlen : shuffled.length = data.length := hperm.length_eq
  have hcut : ⌊(shuffled.length : ℚ) * p⌋₊ ≤ shuffled.length := by
    calc ⌊(shuffled.length : ℚ) * p⌋₊
        ≤ ⌊(shuffled.length : ℚ)⌋₊ :=
          Nat.floor_le_floor (mul_le_of_le_one_right (by positivity) h1)
      _ = shuffled.length := Nat.floor_natCast _
  constructor
  · rw [← hlen]
    simp only [split_data, List.length_take]
    omega
  · rw [← hlen]
    simp only [split_data, List.length_drop]

/-- Witness for C2 at data = [1, 2, 3, 4], shuffled copy [4, 3, 2, 1], p = 1. -/
theorem split_data_lengths_witness :
    (split_data [4, 3, 2, 1] 1).1.length
      = ⌊(([1, 2, 3, 4] : List ℕ).length : ℚ) * 1⌋₊ ∧
    (split_data [4, 3, 2, 1] 1).2.length
      = ([1, 2, 3, 4] : List ℕ).length
        - ⌊(([1, 2, 3, 4] : List ℕ).length : ℚ) * 1⌋₊ :=
  split_data_lengths [1, 2, 3, 4] [4, 3, 2, 1] 1 (by decide) (by decide) (by decide)

/-- Claim C3: for equal-length xs ys and any fraction, train_test_split
returns four lists with len x_train = len y_train, len x_test = len y_test,
and every output position holds a pair (xs[i], ys[i]) taken from the same
original index i, for any permutation shuffledIdxs of the index list that
random.shuffle may have produced. -/
theorem train_test_split_pairing {X Y : Type} (xs : List X) (ys : List Y)
    (test_pct : ℚ) (shuffledIdxs : List ℕ)
    (hperm : shuffledIdxs.Perm (List.range xs.length))
    (hlen : xs.length = ys.length) :
    ∃ xtr xte ytr yte,
      train_test_split xs ys test_pct shuffledIdxs = some (xtr, xte, ytr, yte) ∧
      xtr.length = ytr.length ∧ xte.length = yte.length ∧
      (∀ j, j < xtr.length →
        ∃ i, i < xs.length ∧ xtr[j]? = xs[i]? ∧ ytr[j]? = ys[i]?) ∧
      (∀ j, j < xte.length →
        ∃ i, i < xs.length ∧ xte[j]? = xs[i]? ∧ yte[j]? = ys[i]?) := by
  have hsub : ∀ i ∈ shuffledIdxs, i < xs.length := fun i hi =>
    List.mem_range.mp (hperm.mem_iff.mp hi)
  set cut := ⌊(shuffledIdxs.length : ℚ) * (1 - test_pct)⌋₊ with hcut
  have htr : ∀ i ∈ shuffledIdxs.take cut, i < xs.length := fun i hi =>
    hsub i (List.take_subset _ _ hi)
  have hte : ∀ i ∈ shuffledIdxs.drop cut, i < xs.length := fun i hi =>
    hsub i (List.drop_subset _ _ hi)
  obtain ⟨xtr, h1⟩ := selectIdx_isSome_of_lt htr
  obtain ⟨xte, h2⟩ := selectIdx_isSome_of_lt hte
  obtain ⟨ytr, h3⟩ := selectIdx_isSome_of_lt fun i hi => hlen ▸ htr i hi
  obtain ⟨yte, h4⟩ := selectIdx_isSome_of_lt fun i hi => hlen ▸ hte i hi
  have hpair : ∀ (l : List ℕ) (a : List X) (b : List Y),
      (∀ i ∈ l, i < xs.length) → selectIdx xs l = some a →
      selectIdx ys l = some b →
      ∀ j, j < a.length → ∃ i, i < xs.length ∧ a[j]? = xs[i]? ∧ b[j]? = ys[i]? := by
    intro l a b hl ha hb j hj
    have hjl : j < l.length := by rw [← selectIdx_length ha]; exact hj
    have hli : l[j]? = some (l[j]) := List.getElem?_eq_getElem hjl
    refine ⟨l[j], hl _ (List.getElem_mem hjl), ?_, ?_⟩
    · rw [selectIdx_getElem ha j, hli, Option.some_bind]
    · rw [selectIdx_getElem hb j, hli, Option.some_bind]
  refine ⟨xtr, xte, ytr, yte, train_test_split_some hcut h1 h2 h3 h4, ?_, ?_, ?_, ?_⟩
  · rw [selectIdx_length h1, selectIdx_length h3]
  · rw [selectIdx_length h2, selectIdx_length h4]
  · exact hpair _ _ _ htr h1 h3
  · exact hpair _ _ _ hte h2 h4

/-- Witness for C3 at xs = [10, 20], ys = [5, 6], test_pct = 1/2, with the
index list shuffled to [1, 0]. -/
theorem train_test_split_pairing_witness :
    ∃ xtr xte ytr yte,
      train_test_split [10, 20] [5, 6] (1/2) [1, 0] = some (xtr, xte, ytr, yte) ∧
      xtr.length = ytr.length ∧ xte.length = yte.length ∧
      (∀ j, j < xtr.length →
        ∃ i, i < ([10, 20] : List ℕ).length ∧
          xtr[j]? = ([10, 20] : List ℕ)[i]? ∧ ytr[j]? = ([5, 6] : List ℕ)[i]?) ∧
      (∀ j, j < xte.length →
        ∃ i, i < ([10, 20] : List ℕ).length ∧
          xte[j]? = ([10, 20] : List ℕ)[i]? ∧ yte[j]? = ([5, 6] : List ℕ)[i]?) :=
  train_test_split_pairing [10, 20] [5, 6] (1/2) [1, 0] (by decide) (by decide)

/-- Claim C4 counterexample: the source performs no length check, so with
xs = [10] and ys = [5, 6] of different lengths (and the only possible
shuffle [0] of the index list [0]) train_test_split returns a result
instead of signalling an error. -/
theorem train_test_split_mismatch_counterexample :
    ([10] : List ℕ).length ≠ ([5, 6] : List ℕ).length ∧
    List.Perm [0] (List.range ([10] : List ℕ).length) ∧
    train_test_split ([10] : List ℕ) ([5, 6] : List ℕ) (1/2) [0] ≠ none := by
  refine ⟨by decide, by decide, ?_⟩
  have hc : (0 : ℕ) = ⌊(([0] : List ℕ).length : ℚ) * (1 - 1/2)⌋₊ := by
    rw [eq_comm, Nat.floor_eq_zero]
    norm_num
  have h1 : selectIdx ([10] : List ℕ) (List.take 0 [0]) = some [] := by decide
  have h2 : selectIdx ([10] : List ℕ) (List.drop 0 [0]) = some [10] := by decide
  have h3 : selectIdx ([5, 6] : List ℕ) (List.take 0 [0]) = some [] := by decide
  have h4 : selectIdx ([5, 6] : List ℕ) (List.drop 0 [0]) = some [5] := by decide
  rw [train_test_split_some hc h1 h2 h3 h4]
  simp

/-- Claim C4 as amended: given any permutation of the index list of xs,
train_test_split signals an error (an IndexError on ys) precisely when ys
is shorter than xs; when ys is at least as long as xs, including strictly
longer, it returns a result normally, silently using only the first
len(xs) labels. -/
theorem train_test_split_error_iff {X Y : Type} (xs : List X) (ys : List Y)
    (test_pct : ℚ) (shuffledIdxs : List ℕ)
    (hperm : shuffledIdxs.Perm (List.range xs.length)) :
    train_test_split xs ys test_pct shuffledIdxs = none ↔
      ys.length < xs.length := by
  have hsub : ∀ i ∈ shuffledIdxs, i < xs.length := fun i hi =>
    List.mem_range.mp (hperm.mem_iff.mp hi)
  set cut := ⌊(shuffledIdxs.length : ℚ) * (1 - test_pct)⌋₊ with hcut
  constructor
  · intro hnone
    by_contra hge
    push_neg at hge
    have htr : ∀ i ∈ shuffledIdxs.take cut, i < xs.length := fun i hi =>
      hsub i (List.take_subset _ _ hi)
    have hte : ∀ i ∈ shuffledIdxs.drop cut, i < xs.length := fun i hi =>
      hsub i (List.drop_subset _ _ hi)
    obtain ⟨xtr, h1⟩ := selectIdx_isSome_of_lt htr
    obtain ⟨xte, h2⟩ := selectIdx_isSome_of_lt hte
    obtain ⟨ytr, h3⟩ := selectIdx_isSome_of_lt fun i hi =>
      lt_of_lt_of_le (htr i hi) hge
    obtain ⟨yte, h4⟩ := selectIdx_isSome_of_lt fun i hi =>
      lt_of_lt_of_le (hte i hi) hge
    rw [train_test_split_some hcut h1 h2 h3 h4] at hnone
    exact Option.noConfusion hnone
  · intro hlt
    have hi0 : xs.length - 1 ∈ shuffledIdxs :=
      hperm.mem_iff.mpr (List.mem_range.mpr (by omega))
    have hmem : xs.length - 1 ∈ shuffledIdxs.take cut ∨
        xs.length - 1 ∈ shuffledIdxs.drop cut := by
      rw [← List.mem_append, List.take_append_drop]
      exact hi0
    have hynone : ∀ l : List ℕ, xs.length - 1 ∈ l → selectIdx ys l = none := by
      intro l hl
      refine Option.not_isSome_iff_eq_none.mp fun hs => ?_
      exact absurd ((selectIdx_isSome ys l).mp hs _ hl) (by omega)
    simp only [train_test_split, split_data]
    rw [← hcut]
    cases h1 : selectIdx xs (shuffledIdxs.take cut) with
    | none => rfl
    | some xtr =>
      cases h2 : selectIdx xs (shuffledIdxs.drop cut) with
      | none => rfl
      | some xte =>
        rcases hmem with hin | hin
        · rw [hynone _ hin]
          rfl
        · cases h3 : selectIdx ys (shuffledIdxs.take cut) with
          | none => rfl
          | some ytr =>
            rw [hynone _ hin]
            rfl

/-- Witness for the amended C4 at xs = [10, 20], ys = [5], test_pct = 1/2,
index list shuffled to [1, 0]: the shorter label list makes the call fail. -/
theorem train_test_split_error_iff_witness :
    train_test_split ([10, 20] : List ℕ) ([5] : List ℕ) (1/2) [1, 0] = none :=
  (train_test_split_error_iff [10, 20] [5] (1/2) [1, 0] (by decide)).mpr
    (by decide)

/-- Claim C5: under the precondition that its denominator is positive, each
metric returns exactly the closed-form value of the spec: (tp+tn)/total for
accuracy, tp/(tp+fp) for precision, tp/(tp+fn) for recall, and the harmonic
mean 2pr/(p+r) for f1_score. -/
theorem metrics_closed_form (tp fp fn tn : ℕ) :
    (0 < tp + fp + fn + tn →
      accuracy tp fp fn tn
        = some (((tp : ℚ) + tn) / ((tp : ℚ) + fp + fn + tn))) ∧
    (0 < tp + fp →
      precision tp fp fn tn = some ((tp : ℚ) / ((tp : ℚ) + fp))) ∧
    (0 < tp + fn →
      recall_fn tp fp fn tn = some ((tp : ℚ) / ((tp : ℚ) + fn))) ∧
    (∀ p r : ℚ, precision tp fp fn tn = some p → recall_fn tp fp fn tn = some r →
      0 < p + r → f1_score tp fp fn tn = some (2 * p * r / (p + r))) := by
  refine ⟨fun h => ?_, fun h => ?_, fun h => ?_, fun p r hp hr hpr => ?_⟩
  · have hd : ((tp : ℚ) + fp + fn + tn) ≠ 0 := by
      have hn : (tp + fp + fn + tn : ℕ) ≠ 0 := by omega
      exact_mod_cast hn
    rw [accuracy, pydiv_eq_some hd]
  · have hd : ((tp : ℚ) + fp) ≠ 0 := by
      have hn : (tp + fp : ℕ) ≠ 0 := by omega
      exact_mod_cast hn
    rw [precision, pydiv_eq_some hd]
  · have hd : ((tp : ℚ) + fn) ≠ 0 := by
      have hn : (tp + fn : ℕ) ≠ 0 := by omega
      exact_mod_cast hn
    rw [recall_fn, pydiv_eq_some hd]
  · rw [f1_score, hp, hr]
    simp only [Option.some_bind]
    exact pydiv_eq_some hpr.ne'

/-- Witness for C5 at (tp, fp, fn, tn) = (1, 1, 1, 1). -/
theorem metrics_closed_form_witness :
    accuracy 1 1 1 1 = some (1/2) ∧ precision 1 1 1 1 = some (1/2) ∧
    recall_fn 1 1 1 1 = some (1/2) ∧ f1_score 1 1 1 1 = some (1/2) := by
  have h := metrics_closed_form 1 1 1 1
  have hp : precision 1 1 1 1 = some (1/2) := by
    rw [h.2.1 (by decide)]
    norm_num
  have hr : recall_fn 1 1 1 1 = some (1/2) := by
    rw [h.2.2.1 (by decide)]
    norm_num
  refine ⟨?_, hp, hr, ?_⟩
  · rw [h.1 (by decide)]
    norm_num
  · rw [h.2.2.2 (1/2) (1/2) hp hr (by norm_num)]
    norm_num

/-- Claim C6: accuracy, precision and recall fail with a division-by-zero
error exactly when their denominator count sums to zero, and return
normally on every other input. -/
theorem metrics_failure_iff (tp fp fn tn : ℕ) :
    (accuracy tp fp fn tn = none ↔ tp + fp + fn + tn = 0) ∧
    (precision tp fp fn tn = none ↔ tp + fp = 0) ∧
    (recall_fn tp fp fn tn = none ↔ tp + fn = 0) := by
  refine ⟨?_, ?_, ?_⟩
  · rw [accuracy, pydiv_eq_none]
    norm_cast
  · rw [precision, pydiv_eq_none]
    norm_cast
  · rw [recall_fn, pydiv_eq_none]
    norm_cast

/-- Claim C7: whenever tp > 0 (so precision and recall are both defined and
positive), the f1_score lies between precision and recall. -/
theorem f1_score_between (tp fp fn tn : ℕ) (htp : 0 < tp) :
    ∃ p r f, precision tp fp fn tn = some p ∧ recall_fn tp fp fn tn = some r ∧
      f1_score tp fp fn tn = some f ∧ min p r ≤ f ∧ f ≤ max p r := by
  have htp0 : (0 : ℚ) < (tp : ℚ) := by exact_mod_cast htp
  have hpden : (0 : ℚ) < (tp : ℚ) + fp :=
    add_pos_of_pos_of_nonneg htp0 (Nat.cast_nonneg fp)
  have hrden : (0 : ℚ) < (tp : ℚ) + fn :=
    add_pos_of_pos_of_nonneg htp0 (Nat.cast_nonneg fn)
  have hp0 : (0 : ℚ) < (tp : ℚ) / ((tp : ℚ) + fp) := div_pos htp0 hpden
  have hr0 : (0 : ℚ) < (tp : ℚ) / ((tp : ℚ) + fn) := div_pos htp0 hrden
  have hp : precision tp fp fn tn = some ((tp : ℚ) / ((tp : ℚ) + fp)) := by
    rw [precision, pydiv_eq_some hpden.ne']
  have hr : recall_fn tp fp fn tn = some ((tp : ℚ) / ((tp : ℚ) + fn)) := by
    rw [recall_fn, pydiv_eq_some hrden.ne']
  have hf : f1_score tp fp fn tn
      = some (2 * ((tp : ℚ) / ((tp : ℚ) + fp)) * ((tp : ℚ) / ((tp : ℚ) + fn))
        / ((tp : ℚ) / ((tp : ℚ) + fp) + (tp : ℚ) / ((tp : ℚ) + fn))) := by
    rw [f1_score, hp, hr]
    simp only [Option.some_bind]
    exact pydiv_eq_some (add_pos hp0 hr0).ne'
  exact ⟨_, _, _, hp, hr, hf,
    (harmonic_mean_between hp0 hr0).1, (harmonic_mean_between hp0 hr0).2⟩

/-- Witness for C7 at (tp, fp, fn, tn) = (1, 1, 1, 0). -/
theorem f1_score_between_witness :
    ∃ p r f, precision 1 1 1 0 = some p ∧ recall_fn 1 1 1 0 = some r ∧
      f1_score 1 1 1 0 = some f ∧ min p r ≤ f ∧ f ≤ max p r :=
  f1_score_between 1 1 1 0 (by decide)

/-- Claim C8: on the confusion matrix (70, 4930, 13930, 981070) the metrics
take the exact rational values 981140/1000000, 70/5000, 70/14000 and
14/1900, which round to the spec figures 0.98114, 0.014, 0.005, 0.00736. -/
theorem metrics_spam_example :
    accuracy 70 4930 13930 981070 = some (981140 / 1000000) ∧
    precision 70 4930 13930 981070 = some (70 / 5000) ∧
    recall_fn 70 4930 13930 981070 = some (70 / 14000) ∧
    f1_score 70 4930 13930 981070 = some (14 / 1900) := by
  refine ⟨?_, ?_, ?_, ?_⟩ <;>
    norm_num [accuracy, precision, recall_fn, f1_score, pydiv]

/-- Claim C10: f1_score computes precision and recall before its own
division, so it fails whenever tp + fp = 0 or tp + fn = 0, even when the
other denominator is positive. -/
theorem f1_score_fails_on_zero_denominator (tp fp fn tn : ℕ)
    (h : tp + fp = 0 ∨ tp + fn = 0) : f1_score tp fp fn tn = none := by
  rcases h with h | h
  · have hp : precision tp fp fn tn = none := by
      rw [precision, pydiv_eq_none]
      exact_mod_cast h
    rw [f1_score, hp]
    rfl
  · cases hp : precision tp fp fn tn with
    | none =>
      rw [f1_score, hp]
      rfl
    | some p =>
      have hr : recall_fn tp fp fn tn = none := by
        rw [recall_fn, pydiv_eq_none]
        exact_mod_cast h
      rw [f1_score, hp, hr]
      rfl

/-- Witness for C10 at (tp, fp, fn, tn) = (0, 0, 5, 3): the recall
denominator tp + fn = 5 is positive, yet the call fails because the
precision denominator tp + fp is zero. -/
theorem f1_score_fails_on_zero_denominator_witness :
    (0 + 5 : ℕ) ≠ 0 ∧ f1_score 0 0 5 3 = none :=
  ⟨by decide, f1_score_fails_on_zero_denominator 0 0 5 3 (Or.inl rfl)⟩

/-- Claim C9: split_data leaves the list of the caller unchanged, because it
copies the list and random.shuffle mutates only the copy; in the heap model
the allocated object of the caller is untouched and the returned pair is the
split of the shuffled copy. -/
theorem split_data_preserves_caller {X : Type} (h : Heap X) (dataAddr : ℕ)
    (p : ℚ) (shuffle : List X → List X) (hvalid : dataAddr < h.next) :
    ((split_data_heap h dataAddr p shuffle).2).store dataAddr
        = h.store dataAddr ∧
    (split_data_heap h dataAddr p shuffle).1
        = split_data (shuffle (h.store dataAddr)) p := by
  have hne : dataAddr ≠ h.next := by omega
  constructor
  · simp [split_data_heap, Heap.alloc, Heap.write, hne]
  · simp [split_data_heap, Heap.alloc, Heap.write, split_data]

/-- Witness for C9 on a concrete one-object heap. -/
theorem split_data_preserves_caller_witness :
    ((split_data_heap demoHeap 0 1 id).2).store 0 = demoHeap.store 0 ∧
    (split_data_heap demoHeap 0 1 id).1
      = split_data (id (demoHeap.store 0)) 1 :=
  split_data_preserves_caller demoHeap 0 1 id (by decide)

end MLNotebook
